import Mathlib

/-! Producer / consumer over two channels (`concurrency/producerconsumer.go`)

The program consists of three goroutines (`main`, `produce`, `consume`) that
communicate over the channels `msgs` and `done`.  It is embedded as a labelled
transition system: a state records the program point of every goroutine, the
local variables `i` and `msg`, the contents of the channel `msgs`, and standard
output.  One step of the system is one step of one goroutine, chosen by the
scheduler; a communication on an unbuffered channel is a single step in which
sender and receiver advance together.  The channel `done` is unbuffered and
never closed, so it has no contents to record.

The capacity of `msgs` is a parameter `cap`; the program itself is `cap = 0`
(`make(chan int)`).

History variables (`ops`, `rcvd`, `doneSends`, `doneRecvs`) record what has
happened so far.  They never influence which step is taken.
-/

namespace ProducerConsumer

/-! ## Data model -/

/-- Program points of `main` (source lines 36-40). -/
inductive MainPc
  /-- about to run `go produce()` (line 37) -/
  | goProduce
  /-- about to run `go consume()` (line 38) -/
  | goConsume
  /-- about to run `<-done` (line 39) -/
  | recvDone
  /-- at the closing brace of `main` (line 40) -/
  | ret
  /-- `main` has returned; the process has exited -/
  | exited
  deriving DecidableEq, Repr

/-- Program points of `produce` (source lines 13-18). -/
inductive ProdPc
  /-- the goroutine has not been created yet -/
  | notStarted
  /-- about to run `defer close(msgs)` (line 14) -/
  | deferReg
  /-- about to run the init statement `i := 0` (line 15) -/
  | forInit
  /-- about to evaluate the loop condition `i < 10` (line 15) -/
  | forCond
  /-- about to run `msgs <- i` (line 16) -/
  | send
  /-- about to run the post statement `i++` (line 15) -/
  | forPost
  /-- at the closing brace (line 18): the deferred calls run now -/
  | returning
  /-- `produce` has returned -/
  | exited
  deriving DecidableEq, Repr

/-- Program points of `consume` (source lines 25-30). -/
inductive ConsPc
  /-- the goroutine has not been created yet -/
  | notStarted
  /-- about to receive the next value of `range msgs` (line 26) -/
  | rangeRecv
  /-- about to run `fmt.Println(msg)` (line 27) -/
  | println
  /-- about to run `done <- true` (line 29) -/
  | sendDone
  /-- past `done <- true` -/
  | exited
  deriving DecidableEq, Repr

/-- The operations `produce` performs on the channel `msgs`. -/
inductive ChanOp
  | send (v : Nat)
  | close
  deriving DecidableEq, Repr

/-- The goroutines of the program: the scheduler picks one of them per step. -/
inductive Gid
  | main
  | produce
  | consume
  deriving DecidableEq, Repr

/-- A global state of the running program. -/
structure State where
  /-- program point of `main` -/
  mainPc : MainPc
  /-- program point of `produce` -/
  prodPc : ProdPc
  /-- the loop counter `i` of `produce` -/
  i : Nat
  /-- whether `close(msgs)` is registered as a deferred call of `produce` -/
  prodDefer : Bool
  /-- program point of `consume` -/
  consPc : ConsPc
  /-- the loop variable `msg` of `consume` -/
  msg : Nat
  /-- the channel `msgs`: the values buffered in it, oldest first -/
  msgs : List Nat
  /-- the channel `msgs`: whether it has been closed -/
  msgsClosed : Bool
  /-- a run-time panic happened (send on closed channel, close of closed channel) -/
  panicked : Bool
  /-- the lines written to standard output, oldest first -/
  out : List Nat
  /-- history: the operations `produce` has completed on `msgs`, oldest first -/
  ops : List ChanOp
  /-- history: the values `consume` has received from `msgs`, oldest first -/
  rcvd : List Nat
  /-- history: how many times `done <- true` has completed -/
  doneSends : Nat
  /-- history: how many times `<-done` has completed -/
  doneRecvs : Nat
  deriving DecidableEq, Repr

/-- The state at process start: `main` is about to run, both channels are
open and empty (lines 8-9), nothing has been printed. -/
def init : State :=
  { mainPc := .goProduce, prodPc := .notStarted, i := 0, prodDefer := false,
    consPc := .notStarted, msg := 0, msgs := [], msgsClosed := false, panicked := false,
    out := [], ops := [], rcvd := [], doneSends := 0, doneRecvs := 0 }

/-! ## Operations -/

/-- The communication `msgs <- i` / `range msgs` on an unbuffered channel:
`produce` and `consume` advance together and the value of `i` becomes `msg`. -/
def handoff (s : State) : State :=
  { s with prodPc := .forPost, consPc := .println, msg := s.i,
           ops := s.ops ++ [ChanOp.send s.i], rcvd := s.rcvd ++ [s.i] }

/-- The communication `done <- true` / `<-done` on the unbuffered channel
`done`: `consume` and `main` advance together. -/
def doneSync (s : State) : State :=
  { s with mainPc := .ret, consPc := .exited,
           doneSends := s.doneSends + 1, doneRecvs := s.doneRecvs + 1 }

/-- One step of `main` (lines 36-40), if it is not blocked. -/
def stepMain (s : State) : Option State :=
  match s.mainPc with
  | .goProduce => some { s with mainPc := .goConsume, prodPc := .deferReg }
  | .goConsume => some { s with mainPc := .recvDone, consPc := .rangeRecv }
  | .recvDone => if s.consPc = .sendDone then some (doneSync s) else none
  | .ret => some { s with mainPc := .exited }
  | .exited => none

/-- One step of `produce` (lines 13-18), if it is not blocked.  A send on a
channel of capacity `cap` puts the value in the buffer when there is room;
when there is none (always, for `cap = 0`) it needs the receiver to be ready. -/
def stepProduce (cap : Nat) (s : State) : Option State :=
  match s.prodPc with
  | .notStarted => none
  | .deferReg => some { s with prodPc := .forInit, prodDefer := true }
  | .forInit => some { s with prodPc := .forCond, i := 0 }
  | .forCond =>
      if s.i < 10 then some { s with prodPc := .send }
      else some { s with prodPc := .returning }
  | .send =>
      if s.msgsClosed then some { s with panicked := true }
      else if s.msgs.length < cap then
        some { s with prodPc := .forPost, msgs := s.msgs ++ [s.i],
                      ops := s.ops ++ [ChanOp.send s.i] }
      else if cap = 0 ∧ s.consPc = .rangeRecv then some (handoff s)
      else none
  | .forPost => some { s with prodPc := .forCond, i := s.i + 1 }
  | .returning =>
      if s.prodDefer then
        if s.msgsClosed then some { s with panicked := true }
        else some { s with prodPc := .exited, msgsClosed := true,
                           ops := s.ops ++ [ChanOp.close] }
      else some { s with prodPc := .exited }
  | .exited => none

/-- One step of `consume` (lines 25-30), if it is not blocked.  The receive of
`range msgs` takes the oldest buffered value if there is one; on an empty
channel it leaves the loop when the channel is closed, and otherwise needs a
sender that is ready. -/
def stepConsume (cap : Nat) (s : State) : Option State :=
  match s.consPc with
  | .notStarted => none
  | .rangeRecv =>
      match s.msgs with
      | v :: rest =>
          some { s with consPc := .println, msg := v, msgs := rest,
                        rcvd := s.rcvd ++ [v] }
      | [] =>
          if s.msgsClosed then some { s with consPc := .sendDone }
          else if cap = 0 ∧ s.prodPc = .send then some (handoff s)
          else none
  | .println => some { s with consPc := .rangeRecv, out := s.out ++ [s.msg] }
  | .sendDone => if s.mainPc = .recvDone then some (doneSync s) else none
  | .exited => none

/-- One step of the program: goroutine `g` is scheduled.  `none` means that
`g` cannot move.  Nothing moves once `main` has returned or after a panic,
since either ends the process. -/
def step (cap : Nat) (g : Gid) (s : State) : Option State :=
  if s.panicked = true ∨ s.mainPc = .exited then none
  else
    match g with
    | .main => stepMain s
    | .produce => stepProduce cap s
    | .consume => stepConsume cap s

/-- Run a schedule: the goroutines are stepped in the given order.  `none`
means that the schedule asks a goroutine to move that cannot. -/
def run (cap : Nat) : List Gid → State → Option State
  | [], s => some s
  | g :: gs, s =>
      match step cap g s with
      | some t => run cap gs t
      | none => none

/-- A state is reachable if some schedule leads to it from `init`. -/
def Reachable (cap : Nat) (s : State) : Prop :=
  ∃ sched : List Gid, run cap sched init = some s

/-- A state is terminal if no goroutine can move. -/
def Terminal (cap : Nat) (s : State) : Prop :=
  ∀ g : Gid, step cap g s = none

/-- The number of completed sends on `msgs`. -/
def sendCount (s : State) : Nat :=
  s.ops.countP (fun o => o != ChanOp.close)

/-- The number of completed closes of `msgs`. -/
def closeCount (s : State) : Nat :=
  s.ops.count ChanOp.close

/-- The value carried by an operation of `produce`, if it is a send. -/
def ChanOp.sentValue : ChanOp → Option Nat
  | .send v => some v
  | .close => none

/-- The values sent on `msgs` so far, oldest first. -/
def sentValues (s : State) : List Nat :=
  s.ops.filterMap ChanOp.sentValue

/-- The full trace of `produce`: ten sends followed by one close. -/
def fullTrace : List ChanOp :=
  (List.range 10).map ChanOp.send ++ [ChanOp.close]

/-! ## The inductive invariant -/

/-- The number of values that have entered the channel `msgs`: those already
received plus those still buffered. -/
def entered (s : State) : Nat :=
  s.rcvd.length + s.msgs.length

/-- What is known at each program point of `produce`. -/
def prodInv (s : State) : Prop :=
  match s.prodPc with
  | .notStarted =>
      s.mainPc = .goProduce ∧ entered s = 0 ∧ s.msgsClosed = false ∧ s.prodDefer = false ∧
        s.i = 0
  | .deferReg => entered s = 0 ∧ s.msgsClosed = false ∧ s.prodDefer = false ∧ s.i = 0
  | .forInit => entered s = 0 ∧ s.msgsClosed = false ∧ s.prodDefer = true ∧ s.i = 0
  | .forCond => s.i = entered s ∧ s.msgsClosed = false ∧ s.prodDefer = true
  | .send => s.i = entered s ∧ s.i < 10 ∧ s.msgsClosed = false ∧ s.prodDefer = true
  | .forPost => s.i + 1 = entered s ∧ s.msgsClosed = false ∧ s.prodDefer = true
  | .returning => s.i = 10 ∧ entered s = 10 ∧ s.msgsClosed = false ∧ s.prodDefer = true
  | .exited => s.i = 10 ∧ entered s = 10 ∧ s.msgsClosed = true ∧ s.prodDefer = true

/-- What is known at each program point of `consume`. -/
def consInv (s : State) : Prop :=
  match s.consPc with
  | .notStarted =>
      (s.mainPc = .goProduce ∨ s.mainPc = .goConsume) ∧ s.rcvd = [] ∧ s.out = [] ∧
        s.doneSends = 0
  | .rangeRecv => s.mainPc = .recvDone ∧ s.out = s.rcvd ∧ s.doneSends = 0
  | .println => s.mainPc = .recvDone ∧ s.rcvd = s.out ++ [s.msg] ∧ s.doneSends = 0
  | .sendDone =>
      s.mainPc = .recvDone ∧ s.msgsClosed = true ∧ s.msgs = [] ∧ s.out = s.rcvd ∧
        s.doneSends = 0
  | .exited =>
      (s.mainPc = .ret ∨ s.mainPc = .exited) ∧ s.msgsClosed = true ∧ s.msgs = [] ∧
        s.out = s.rcvd ∧ s.doneSends = 1

/-- What is known at each program point of `main`. -/
def mainInv (s : State) : Prop :=
  match s.mainPc with
  | .goProduce => s.prodPc = .notStarted ∧ s.consPc = .notStarted ∧ s.doneRecvs = 0
  | .goConsume => s.prodPc ≠ .notStarted ∧ s.consPc = .notStarted ∧ s.doneRecvs = 0
  | .recvDone =>
      s.prodPc ≠ .notStarted ∧ s.consPc ≠ .notStarted ∧ s.consPc ≠ .exited ∧
        s.doneRecvs = 0
  | .ret => s.consPc = .exited ∧ s.doneRecvs = 1
  | .exited => s.consPc = .exited ∧ s.doneRecvs = 1

/-- The invariant of the program for a channel `msgs` of capacity `cap`. -/
structure Inv (cap : Nat) (s : State) : Prop where
  /-- no panic has happened -/
  noPanic : s.panicked = false
  /-- first in, first out: received values followed by buffered values are 0, 1, 2, ... -/
  fifo : s.rcvd ++ s.msgs = List.range (entered s)
  /-- the buffer respects the capacity -/
  bufCap : s.msgs.length ≤ cap
  /-- at most ten values enter the channel -/
  atMost : entered s ≤ 10
  /-- the history of `produce` is the sends of 0, 1, 2, ... and then the close -/
  opsEq : s.ops = (List.range (entered s)).map ChanOp.send ++
            (if s.msgsClosed = true then [ChanOp.close] else [])
  /-- facts about `produce` -/
  prod : prodInv s
  /-- facts about `consume` -/
  cons : consInv s
  /-- facts about `main` -/
  main : mainInv s

/-- The number of steps `main` has left. -/
def mainFuel (s : State) : Nat :=
  match s.mainPc with
  | .goProduce => 4
  | .goConsume => 3
  | .recvDone => 2
  | .ret => 1
  | .exited => 0

/-- An upper bound on the number of steps `produce` has left. -/
def prodFuel (s : State) : Nat :=
  match s.prodPc with
  | .notStarted => 34
  | .deferReg => 34
  | .forInit => 33
  | .forCond => 3 * (10 - s.i) + 2
  | .send => 3 * (10 - s.i) + 1
  | .forPost => 3 * (10 - s.i)
  | .returning => 1
  | .exited => 0

/-- An upper bound on the number of steps `consume` has left. -/
def consFuel (s : State) : Nat :=
  match s.consPc with
  | .notStarted => 22
  | .rangeRecv => 2 * (10 - s.rcvd.length) + 2
  | .println => 2 * (10 - s.rcvd.length) + 3
  | .sendDone => 1
  | .exited => 0

/-- An upper bound on the number of steps the program has left. -/
def fuel (s : State) : Nat :=
  mainFuel s + prodFuel s + consFuel s

/-! ## Schedules used as concrete inputs -/

/-- The first steps of every run: `main` starts both goroutines, `produce`
registers its deferred call and initialises `i`. -/
def startup : List Gid :=
  [.main, .main, .produce, .produce]

/-- One round of the unbuffered program: `produce` tests `i < 10` and
communicates `i`, `consume` prints it, `produce` increments `i`. -/
def round : List Gid :=
  [.produce, .produce, .consume, .produce]

/-- Ten rounds, after which `produce` leaves its loop and closes `msgs`. -/
def scheduleToClose : List Gid :=
  startup ++ (List.replicate 10 round).flatten ++ [.produce, .produce]

/-- A schedule of the unbuffered program that runs to completion: after the
close, `consume` leaves its loop and signals on `done`, and `main` returns. -/
def schedule0 : List Gid :=
  scheduleToClose ++ [.consume, .consume, .main]

/-- A schedule that stops in the third round, before `consume` prints 2. -/
def scheduleMid : List Gid :=
  startup ++ round ++ round ++ [.produce, .produce]

/-- A complete schedule for capacity 10 in which `produce` runs to its end and
closes `msgs` before `consume` has received anything. -/
def schedule10 : List Gid :=
  [.main, .main] ++ List.replicate 34 Gid.produce ++ List.replicate 22 Gid.consume ++
    [.main]

/-- The first part of `schedule10`, up to the close of `msgs`. -/
def scheduleFill10 : List Gid :=
  [.main, .main] ++ List.replicate 34 Gid.produce

/-- The state after `scheduleFill10` for capacity 10: `msgs` is closed while
all ten values are still in its buffer. -/
def closedFull10 : State :=
  { mainPc := .recvDone, prodPc := .exited, i := 10, prodDefer := true,
    consPc := .rangeRecv, msg := 0, msgs := [0, 1, 2, 3, 4, 5, 6, 7, 8, 9],
    msgsClosed := true, panicked := false, out := [],
    ops := [.send 0, .send 1, .send 2, .send 3, .send 4, .send 5, .send 6, .send 7,
            .send 8, .send 9, .close],
    rcvd := [], doneSends := 0, doneRecvs := 0 }

/-- The state the unbuffered program is in when `main` has returned. -/
def final0 : State :=
  { mainPc := .exited, prodPc := .exited, i := 10, prodDefer := true,
    consPc := .exited, msg := 9, msgs := [], msgsClosed := true, panicked := false,
    out := [0, 1, 2, 3, 4, 5, 6, 7, 8, 9],
    ops := [.send 0, .send 1, .send 2, .send 3, .send 4, .send 5, .send 6, .send 7,
            .send 8, .send 9, .close],
    rcvd := [0, 1, 2, 3, 4, 5, 6, 7, 8, 9], doneSends := 1, doneRecvs := 1 }

/-- The state of the unbuffered program right after `produce` has closed
`msgs`: `consume` is back at its receive and has not seen the close yet. -/
def afterClose0 : State :=
  { mainPc := .recvDone, prodPc := .exited, i := 10, prodDefer := true,
    consPc := .rangeRecv, msg := 9, msgs := [], msgsClosed := true, panicked := false,
    out := [0, 1, 2, 3, 4, 5, 6, 7, 8, 9],
    ops := [.send 0, .send 1, .send 2, .send 3, .send 4, .send 5, .send 6, .send 7,
            .send 8, .send 9, .close],
    rcvd := [0, 1, 2, 3, 4, 5, 6, 7, 8, 9], doneSends := 0, doneRecvs := 0 }

/-- The state of the unbuffered program after `scheduleMid`: 0 and 1 are
printed, 2 is received and not printed yet. -/
def mid0 : State :=
  { mainPc := .recvDone, prodPc := .forPost, i := 2, prodDefer := true,
    consPc := .println, msg := 2, msgs := [], msgsClosed := false, panicked := false,
    out := [0, 1], ops := [.send 0, .send 1, .send 2], rcvd := [0, 1, 2],
    doneSends := 0, doneRecvs := 0 }

/-! ## Basic facts -/

theorem inv_init (cap : Nat) : Inv cap init := by
  constructor <;> simp [init, entered, prodInv, consInv, mainInv]

theorem fifo_push (r b : List Nat) (h : r ++ b = List.range (r.length + b.length)) :
    r ++ (b ++ [r.length + b.length]) = List.range (r.length + (b ++ [r.length + b.length]).length) := by
  rw [List.length_append, List.length_singleton, ← Nat.add_assoc, List.range_succ,
    ← List.append_assoc, h]

theorem fifo_pop (r rest : List Nat) (v : Nat)
    (h : r ++ v :: rest = List.range (r.length + (v :: rest).length)) :
    (r ++ [v]) ++ rest = List.range ((r ++ [v]).length + rest.length) := by
  have e : (r ++ [v]).length + rest.length = r.length + (v :: rest).length := by
    simp only [List.length_append, List.length_cons, List.length_nil]
    omega
  rw [e, ← h, List.append_assoc, List.singleton_append]

theorem inv_stepMain (cap : Nat) (s t : State) (h : Inv cap s)
    (hs : stepMain s = some t) : Inv cap t := by
  obtain ⟨h1, h2, h3, h4, h5, h6, h7, h8⟩ := h
  rcases s with ⟨mpc, ppc, i, df, cpc, msg, buf, closed, pan, out, ops, rcvd, ds, dr⟩
  cases mpc <;> simp only [stepMain, doneSync] at hs
  · cases hs
    refine ⟨h1, h2, h3, h4, h5, ?_, ?_, ?_⟩ <;> clear h2 h5 <;>
      simp_all [entered, prodInv, consInv, mainInv]
  · cases hs
    refine ⟨h1, h2, h3, h4, h5, ?_, ?_, ?_⟩ <;> clear h2 h5 <;>
      cases ppc <;> simp_all [entered, prodInv, consInv, mainInv]
  · split at hs
    · cases hs
      refine ⟨h1, h2, h3, h4, h5, ?_, ?_, ?_⟩ <;> clear h2 h5 <;>
        cases ppc <;> simp_all [entered, prodInv, consInv, mainInv]
    · cases hs
  · cases hs
    refine ⟨h1, h2, h3, h4, h5, ?_, ?_, ?_⟩ <;> clear h2 h5 <;>
      cases ppc <;> simp_all [entered, prodInv, consInv, mainInv]
  · cases hs

theorem inv_handoff (s : State) (h : Inv 0 s) (hp : s.prodPc = .send)
    (hc : s.consPc = .rangeRecv) : Inv 0 (handoff s) := by
  obtain ⟨h1, h2, h3, h4, h5, h6, h7, h8⟩ := h
  rcases s with ⟨mpc, ppc, i, df, cpc, msg, buf, closed, pan, out, ops, rcvd, ds, dr⟩
  dsimp only at hp hc
  subst hp hc
  dsimp only [prodInv, consInv, entered] at h1 h2 h3 h4 h5 h6 h7
  obtain ⟨hi, hlt, hcl, hdf⟩ := h6
  obtain ⟨hm, ho, hd⟩ := h7
  have hb : buf = [] := List.eq_nil_of_length_eq_zero (Nat.le_zero.mp h3)
  subst hb hcl hi
  simp only [List.length_nil, Nat.add_zero, List.append_nil, Bool.false_eq_true,
    if_false] at h2 h4 h5 hlt
  refine ⟨h1, ?_, ?_, ?_, ?_, ?_, ?_, ?_⟩
  · simp only [handoff, entered, List.length_append, List.length_singleton, List.length_nil,
      Nat.add_zero, List.append_nil]
    rw [List.range_succ, ← h2]
  · simp [handoff]
  · simp only [handoff, entered, List.length_append, List.length_singleton, List.length_nil]
    omega
  · simp only [handoff, entered, List.length_append, List.length_singleton, List.length_nil,
      Nat.add_zero, Bool.false_eq_true, if_false]
    rw [h5, List.range_succ]
    simp
  · simp [handoff, prodInv, entered, hdf]
  · simp only [handoff, consInv]
    exact ⟨hm, by rw [ho], hd⟩
  · clear h2 h5
    cases mpc <;> simp_all [mainInv, handoff]

theorem inv_stepProduce (cap : Nat) (s t : State) (h : Inv cap s)
    (hs : stepProduce cap s = some t) : Inv cap t := by
  have h0 := h
  obtain ⟨h1, h2, h3, h4, h5, h6, h7, h8⟩ := h
  rcases s with ⟨mpc, ppc, i, df, cpc, msg, buf, closed, pan, out, ops, rcvd, ds, dr⟩
  cases ppc <;> simp only [stepProduce, handoff] at hs
  · cases hs
  · cases hs
    refine ⟨h1, h2, h3, h4, h5, ?_, ?_, ?_⟩ <;> clear h2 h5 <;>
      cases mpc <;> cases cpc <;> simp_all [entered, prodInv, consInv, mainInv]
  · cases hs
    refine ⟨h1, h2, h3, h4, h5, ?_, ?_, ?_⟩ <;> clear h2 h5 <;>
      cases mpc <;> cases cpc <;> simp_all [entered, prodInv, consInv, mainInv]
  · split at hs
    · cases hs
      refine ⟨h1, h2, h3, h4, h5, ?_, ?_, ?_⟩ <;> clear h2 h5 <;>
        cases mpc <;> cases cpc <;> simp_all [entered, prodInv, consInv, mainInv]
    · cases hs
      refine ⟨h1, h2, h3, h4, h5, ?_, ?_, ?_⟩ <;> clear h2 h5 <;>
        cases mpc <;> cases cpc <;> simp_all [entered, prodInv, consInv, mainInv] <;> omega
  · dsimp only [prodInv, entered] at h1 h2 h3 h4 h5 h6 hs
    obtain ⟨hi, hlt, hcl, hdf⟩ := h6
    subst hi hcl
    simp only [Bool.false_eq_true, if_false] at hs h5
    split at hs
    · cases hs
      refine ⟨h1, ?_, ?_, ?_, ?_, ?_, ?_, ?_⟩
      · exact fifo_push rcvd buf h2
      · simp only [List.length_append, List.length_singleton]; omega
      · simp only [entered, List.length_append, List.length_singleton]; omega
      · simp only [entered, List.length_append, List.length_singleton, Bool.false_eq_true,
          if_false]
        rw [h5, ← Nat.add_assoc, List.range_succ]
        simp
      · simp [prodInv, entered, hdf]; omega
      · clear h2 h5
        cases cpc <;> simp_all [consInv]
      · clear h2 h5
        cases mpc <;> simp_all [mainInv]
    · split at hs
      · rename_i hc
        obtain ⟨hc0, hcr⟩ := hc
        subst hc0
        cases hs
        exact inv_handoff _ h0 rfl hcr
      · cases hs
  · cases hs
    refine ⟨h1, h2, h3, h4, h5, ?_, ?_, ?_⟩ <;> clear h2 h5 <;>
      cases mpc <;> cases cpc <;> simp_all [entered, prodInv, consInv, mainInv]
  · dsimp only [prodInv, entered] at h1 h2 h3 h4 h5 h6 hs
    obtain ⟨hi, hn, hcl, hdf⟩ := h6
    subst hcl hdf
    simp only [Bool.false_eq_true, if_false, if_true] at hs h5
    cases hs
    refine ⟨h1, h2, h3, h4, ?_, ?_, ?_, ?_⟩
    · simp only [entered, if_true] at h5 ⊢
      rw [h5]
      simp
    · exact ⟨hi, hn, rfl, rfl⟩
    · clear h2 h5
      cases cpc <;> simp_all [consInv]
    · clear h2 h5
      cases mpc <;> simp_all [mainInv]
  · cases hs

theorem inv_stepConsume (cap : Nat) (s t : State) (h : Inv cap s)
    (hs : stepConsume cap s = some t) : Inv cap t := by
  have h0 := h
  obtain ⟨h1, h2, h3, h4, h5, h6, h7, h8⟩ := h
  rcases s with ⟨mpc, ppc, i, df, cpc, msg, buf, closed, pan, out, ops, rcvd, ds, dr⟩
  cases cpc <;> simp only [stepConsume] at hs
  · cases hs
  · dsimp only [consInv, entered] at h1 h2 h3 h4 h5 h7 hs
    obtain ⟨hm, ho, hd⟩ := h7
    cases buf with
    | cons v rest =>
      dsimp only at hs
      cases hs
      have e : (rcvd ++ [v]).length + rest.length = rcvd.length + (v :: rest).length := by
        simp only [List.length_append, List.length_cons, List.length_nil]
        omega
      refine ⟨h1, fifo_pop rcvd rest v h2, ?_, ?_, ?_, ?_, ?_, ?_⟩
      · simp only [List.length_cons] at h3 ⊢
        omega
      · simp only [entered]
        rw [e]
        exact h4
      · simp only [entered]
        rw [e]
        exact h5
      · clear h2 h5
        simp only [List.length_cons] at h4
        cases ppc <;> (simp_all [prodInv, entered]; try omega)
      · exact ⟨hm, by rw [ho], hd⟩
      · clear h2 h5
        cases mpc <;> simp_all [mainInv]
    | nil =>
      dsimp only at hs
      split at hs
      · rename_i hcl
        cases hs
        refine ⟨h1, h2, h3, h4, h5, ?_, ?_, ?_⟩
        · clear h2 h5
          cases ppc <;> simp_all [prodInv, entered]
        · exact ⟨hm, hcl, rfl, ho, hd⟩
        · clear h2 h5
          cases mpc <;> simp_all [mainInv]
      · split at hs
        · rename_i hc
          obtain ⟨hc0, hcp⟩ := hc
          subst hc0
          cases hs
          exact inv_handoff _ h0 hcp rfl
        · cases hs
  · cases hs
    dsimp only [consInv] at h7
    obtain ⟨hm, ho, hd⟩ := h7
    refine ⟨h1, h2, h3, h4, h5, h6, ?_, ?_⟩
    · exact ⟨hm, ho.symm, hd⟩
    · clear h2 h5 h0
      cases mpc <;> simp_all [mainInv]
  · split at hs
    · rename_i hmr
      subst hmr
      cases hs
      dsimp only [consInv] at h7
      obtain ⟨-, hcl, hb, ho, hd⟩ := h7
      refine ⟨h1, h2, h3, h4, h5, ?_, ?_, ?_⟩
      · clear h2 h5
        cases ppc <;> simp_all [prodInv, entered, doneSync, mainInv]
      · exact ⟨Or.inl rfl, hcl, hb, ho, by simp only [doneSync]; omega⟩
      · dsimp only [mainInv] at h8
        exact ⟨rfl, by simp only [doneSync]; omega⟩
    · cases hs
  · cases hs

theorem inv_step (cap : Nat) (g : Gid) (s t : State) (h : Inv cap s)
    (hs : step cap g s = some t) : Inv cap t := by
  unfold step at hs
  split at hs
  · cases hs
  · cases g
    · exact inv_stepMain cap s t h hs
    · exact inv_stepProduce cap s t h hs
    · exact inv_stepConsume cap s t h hs

theorem inv_run (cap : Nat) (sched : List Gid) :
    ∀ s t : State, Inv cap s → run cap sched s = some t → Inv cap t := by
  induction sched with
  | nil =>
    intro s t h hr
    simp only [run, Option.some.injEq] at hr
    exact hr ▸ h
  | cons g gs ih =>
    intro s t h hr
    simp only [run] at hr
    cases hg : step cap g s with
    | none => rw [hg] at hr; cases hr
    | some u =>
      rw [hg] at hr
      exact ih u t (inv_step cap g s u h hg) hr

theorem inv_of_reachable (cap : Nat) (s : State) (h : Reachable cap s) : Inv cap s := by
  obtain ⟨sched, hr⟩ := h
  exact inv_run cap sched init s (inv_init cap) hr

/-! ## Progress: every step uses up fuel -/

theorem fuel_stepMain (cap : Nat) (s t : State) (h : Inv cap s)
    (hs : stepMain s = some t) : fuel t < fuel s := by
  obtain ⟨-, -, -, -, -, -, h7, h8⟩ := h
  rcases s with ⟨mpc, ppc, i, df, cpc, msg, buf, closed, pan, out, ops, rcvd, ds, dr⟩
  cases mpc <;> simp only [stepMain, doneSync] at hs
  · cases hs
    obtain ⟨hp, -, -⟩ := h8
    dsimp only at hp
    subst hp
    unfold fuel mainFuel prodFuel consFuel
    dsimp only
    omega
  · cases hs
    obtain ⟨-, hc, -⟩ := h8
    dsimp only at hc
    subst hc
    obtain ⟨-, hr, -, -⟩ := h7
    dsimp only at hr
    subst hr
    unfold fuel mainFuel prodFuel consFuel
    dsimp only [List.length_nil]
    omega
  · split at hs
    · rename_i hc
      subst hc
      cases hs
      unfold fuel mainFuel prodFuel consFuel
      dsimp only
      omega
    · cases hs
  · cases hs
    unfold fuel mainFuel prodFuel consFuel
    dsimp only
    omega
  · cases hs

theorem fuel_handoff (s : State) (h : Inv 0 s) (hp : s.prodPc = .send)
    (hc : s.consPc = .rangeRecv) : fuel (handoff s) < fuel s := by
  obtain ⟨-, -, -, -, -, h6, -, -⟩ := h
  rcases s with ⟨mpc, ppc, i, df, cpc, msg, buf, closed, pan, out, ops, rcvd, ds, dr⟩
  dsimp only at hp hc
  subst hp hc
  dsimp only [prodInv, entered] at h6
  obtain ⟨hi, hlt, -, -⟩ := h6
  unfold handoff fuel mainFuel prodFuel consFuel
  simp only [List.length_append, List.length_singleton]
  omega

theorem fuel_stepProduce (cap : Nat) (s t : State) (h : Inv cap s)
    (hs : stepProduce cap s = some t) : fuel t < fuel s := by
  have h0 := h
  obtain ⟨-, -, -, h4, -, h6, -, -⟩ := h
  rcases s with ⟨mpc, ppc, i, df, cpc, msg, buf, closed, pan, out, ops, rcvd, ds, dr⟩
  cases ppc <;> simp only [stepProduce] at hs <;>
    dsimp only [prodInv, entered] at h4 h6
  · cases hs
  · cases hs
    unfold fuel mainFuel prodFuel consFuel
    dsimp only
    omega
  · cases hs
    unfold fuel mainFuel prodFuel consFuel
    dsimp only
    omega
  · split at hs <;> cases hs <;> unfold fuel mainFuel prodFuel consFuel <;> dsimp only <;> omega
  · obtain ⟨hi, hlt, hcl, hdf⟩ := h6
    subst hcl
    simp only [Bool.false_eq_true, if_false] at hs
    split at hs
    · cases hs
      unfold fuel mainFuel prodFuel consFuel
      dsimp only
      omega
    · split at hs
      · rename_i hc
        obtain ⟨hc0, hcr⟩ := hc
        subst hc0
        cases hs
        exact fuel_handoff _ h0 rfl hcr
      · cases hs
  · cases hs
    unfold fuel mainFuel prodFuel consFuel
    dsimp only
    omega
  · obtain ⟨-, -, hcl, hdf⟩ := h6
    subst hcl hdf
    simp only [Bool.false_eq_true, if_false, if_true] at hs
    cases hs
    unfold fuel mainFuel prodFuel consFuel
    dsimp only
    omega
  · cases hs

theorem fuel_stepConsume (cap : Nat) (s t : State) (h : Inv cap s)
    (hs : stepConsume cap s = some t) : fuel t < fuel s := by
  have h0 := h
  obtain ⟨-, -, -, h4, -, -, h7, -⟩ := h
  rcases s with ⟨mpc, ppc, i, df, cpc, msg, buf, closed, pan, out, ops, rcvd, ds, dr⟩
  cases cpc <;> simp only [stepConsume] at hs <;>
    dsimp only [consInv, entered] at h4 h7
  · cases hs
  · cases buf with
    | cons v rest =>
      dsimp only at hs
      cases hs
      simp only [List.length_cons] at h4
      unfold fuel mainFuel prodFuel consFuel
      simp only [List.length_append, List.length_singleton]
      omega
    | nil =>
      dsimp only at hs
      split at hs
      · cases hs
        unfold fuel mainFuel prodFuel consFuel
        dsimp only
        omega
      · split at hs
        · rename_i hc
          obtain ⟨hc0, hcp⟩ := hc
          subst hc0
          cases hs
          exact fuel_handoff _ h0 hcp rfl
        · cases hs
  · cases hs
    unfold fuel mainFuel prodFuel consFuel
    dsimp only
    omega
  · split at hs
    · cases hs
      obtain ⟨hm, -⟩ := h7
      subst hm
      unfold doneSync fuel mainFuel prodFuel consFuel
      dsimp only
      omega
    · cases hs
  · cases hs

theorem fuel_step (cap : Nat) (g : Gid) (s t : State) (h : Inv cap s)
    (hs : step cap g s = some t) : fuel t < fuel s := by
  unfold step at hs
  split at hs
  · cases hs
  · cases g
    · exact fuel_stepMain cap s t h hs
    · exact fuel_stepProduce cap s t h hs
    · exact fuel_stepConsume cap s t h hs

theorem fuel_run (cap : Nat) (sched : List Gid) :
    ∀ s t : State, Inv cap s → run cap sched s = some t →
      fuel t + sched.length ≤ fuel s := by
  induction sched with
  | nil =>
    intro s t _ hr
    simp only [run, Option.some.injEq] at hr
    subst hr
    simp
  | cons g gs ih =>
    intro s t h hr
    simp only [run] at hr
    cases hg : step cap g s with
    | none => rw [hg] at hr; cases hr
    | some u =>
      rw [hg] at hr
      have h1 := ih u t (inv_step cap g s u h hg) hr
      have h2 := fuel_step cap g s u h hg
      simp only [List.length_cons]
      omega

/-! ## Absence of deadlock -/

theorem enabled_of_inv (cap : Nat) (s : State) (h : Inv cap s)
    (hm : s.mainPc ≠ .exited) : ∃ g : Gid, (step cap g s).isSome = true := by
  obtain ⟨h1, -, h3, -, -, h6, h7, h8⟩ := h
  rcases s with ⟨mpc, ppc, i, df, cpc, msg, buf, closed, pan, out, ops, rcvd, ds, dr⟩
  dsimp only at h1 h3 hm
  subst h1
  cases mpc
  · exact ⟨.main, by simp [step, stepMain]⟩
  · exact ⟨.main, by simp [step, stepMain]⟩
  · cases cpc
    · simp [mainInv] at h8
    · cases buf with
      | cons v rest => exact ⟨.consume, by simp [step, stepConsume]⟩
      | nil =>
        cases closed
        · cases ppc
          · simp [mainInv] at h8
          · exact ⟨.produce, by simp [step, stepProduce]⟩
          · exact ⟨.produce, by simp [step, stepProduce]⟩
          · refine ⟨.produce, ?_⟩
            by_cases hi : i < 10
            · simp [step, stepProduce, hi]
            · simp [step, stepProduce, hi]
          · refine ⟨.produce, ?_⟩
            rcases Nat.eq_zero_or_pos cap with hc | hc
            · simp [step, stepProduce, hc]
            · simp [step, stepProduce, hc]
          · exact ⟨.produce, by simp [step, stepProduce]⟩
          · refine ⟨.produce, ?_⟩
            simp only [prodInv] at h6
            simp [step, stepProduce, h6.2.2.2]
          · simp [prodInv] at h6
        · exact ⟨.consume, by simp [step, stepConsume]⟩
    · exact ⟨.consume, by simp [step, stepConsume]⟩
    · exact ⟨.consume, by simp [step, stepConsume]⟩
    · simp [mainInv] at h8
  · exact ⟨.main, by simp [step, stepMain]⟩
  · exact absurd rfl hm

theorem step_none_of_exited (cap : Nat) (g : Gid) (s : State)
    (h : s.mainPc = .exited) : step cap g s = none := by
  simp [step, h]

theorem terminal_iff (cap : Nat) (s : State) (h : Inv cap s) :
    Terminal cap s ↔ s.mainPc = .exited := by
  constructor
  · intro ht
    by_contra hm
    obtain ⟨g, hg⟩ := enabled_of_inv cap s h hm
    rw [ht g] at hg
    cases hg
  · intro hm g
    exact step_none_of_exited cap g s hm

theorem run_append (cap : Nat) (xs ys : List Gid) :
    ∀ s : State, run cap (xs ++ ys) s =
      match run cap xs s with
      | some t => run cap ys t
      | none => none := by
  induction xs with
  | nil => intro s; rfl
  | cons g gs ih =>
    intro s
    simp only [List.cons_append, run]
    cases step cap g s with
    | none => rfl
    | some u => exact ih u

theorem exists_terminal_run (cap : Nat) :
    ∀ (n : Nat) (s : State), Inv cap s → fuel s ≤ n →
      ∃ (sched : List Gid) (t : State), run cap sched s = some t ∧ t.mainPc = .exited := by
  intro n
  induction n with
  | zero =>
    intro s h hf
    by_cases hm : s.mainPc = .exited
    · exact ⟨[], s, rfl, hm⟩
    · obtain ⟨g, hg⟩ := enabled_of_inv cap s h hm
      obtain ⟨u, hu⟩ := Option.isSome_iff_exists.mp hg
      have := fuel_step cap g s u h hu
      omega
  | succ n ih =>
    intro s h hf
    by_cases hm : s.mainPc = .exited
    · exact ⟨[], s, rfl, hm⟩
    · obtain ⟨g, hg⟩ := enabled_of_inv cap s h hm
      obtain ⟨u, hu⟩ := Option.isSome_iff_exists.mp hg
      have hlt := fuel_step cap g s u h hu
      obtain ⟨sched, t, hr, ht⟩ := ih u (inv_step cap g s u h hu) (by omega)
      refine ⟨g :: sched, t, ?_, ht⟩
      simp only [run, hu]
      exact hr

/-! ## Consequences of the invariant -/

theorem countP_map_send (l : List Nat) :
    (l.map ChanOp.send).countP (fun o => o != ChanOp.close) = l.length := by
  induction l with
  | nil => rfl
  | cons a l ih => simp [List.countP_cons, ih]

theorem count_close_map_send (l : List Nat) :
    (l.map ChanOp.send).count ChanOp.close = 0 := by
  induction l with
  | nil => rfl
  | cons a l ih => simp [List.count_cons, ih]

theorem filterMap_map_send (l : List Nat) :
    (l.map ChanOp.send).filterMap ChanOp.sentValue = l := by
  induction l with
  | nil => rfl
  | cons a l ih => simp [List.filterMap_cons, ChanOp.sentValue, ih]

theorem prefix_range_eq (l : List Nat) (n : Nat) (h : l <+: List.range n) :
    l = List.range l.length := by
  have h1 := List.prefix_iff_eq_take.mp h
  have h2 := h.length_le
  rw [List.length_range] at h2
  rw [List.take_range, Nat.min_eq_left h2] at h1
  exact h1

theorem range_prefix_range (m n : Nat) (h : m ≤ n) : List.range m <+: List.range n := by
  have := List.take_prefix m (List.range n)
  rwa [List.take_range, Nat.min_eq_left h] at this

theorem sendCount_eq (cap : Nat) (s : State) (h : Inv cap s) : sendCount s = entered s := by
  unfold sendCount
  rw [h.opsEq, List.countP_append, countP_map_send, List.length_range]
  split <;> simp

theorem closeCount_eq (cap : Nat) (s : State) (h : Inv cap s) :
    closeCount s = if s.msgsClosed = true then 1 else 0 := by
  unfold closeCount
  rw [h.opsEq, List.count_append, count_close_map_send]
  split <;> simp

theorem sentValues_eq (cap : Nat) (s : State) (h : Inv cap s) :
    sentValues s = s.rcvd ++ s.msgs := by
  unfold sentValues
  rw [h.opsEq, List.filterMap_append, filterMap_map_send, h.fifo]
  split <;> simp [ChanOp.sentValue]

theorem rcvd_prefix_range (cap : Nat) (s : State) (h : Inv cap s) :
    s.rcvd <+: List.range 10 := by
  have h1 : s.rcvd <+: List.range (entered s) := by
    rw [← h.fifo]
    exact List.prefix_append _ _
  exact h1.trans (range_prefix_range _ _ h.atMost)

theorem out_prefix_rcvd (cap : Nat) (s : State) (h : Inv cap s) : s.out <+: s.rcvd := by
  have h7 := h.cons
  unfold consInv at h7
  split at h7
  · rw [h7.2.1, h7.2.2.1]
  · rw [h7.2.1]
  · rw [h7.2.1]
    exact List.prefix_append _ _
  · rw [h7.2.2.2.1]
  · rw [h7.2.2.2.1]

theorem closed_imp (cap : Nat) (s : State) (h : Inv cap s) (hc : s.msgsClosed = true) :
    s.prodPc = .exited ∧ entered s = 10 ∧ s.i = 10 := by
  have h6 := h.prod
  unfold prodInv at h6
  split at h6 <;> simp_all

theorem unbuffered_buf (s : State) (h : Inv 0 s) : s.msgs = [] :=
  List.eq_nil_of_length_eq_zero (Nat.le_zero.mp h.bufCap)

theorem exited_imp (cap : Nat) (s : State) (h : Inv cap s) (hm : s.mainPc = .exited) :
    s.consPc = .exited ∧ s.doneRecvs = 1 ∧ s.doneSends = 1 ∧ s.msgsClosed = true ∧
      s.msgs = [] ∧ s.out = s.rcvd ∧ s.rcvd = List.range 10 ∧ s.prodPc = .exited := by
  have h8 := h.main
  unfold mainInv at h8
  rw [hm] at h8
  obtain ⟨hc, hd⟩ := h8
  have h7 := h.cons
  unfold consInv at h7
  rw [hc] at h7
  obtain ⟨-, hcl, hb, ho, hs⟩ := h7
  obtain ⟨hp, he, -⟩ := closed_imp cap s h hcl
  have hf := h.fifo
  rw [he, hb, List.append_nil] at hf
  exact ⟨hc, hd, hs, hcl, hb, ho, hf, hp⟩

theorem i_le_ten (cap : Nat) (s : State) (h : Inv cap s) : s.i ≤ 10 := by
  have h6 := h.prod
  have h4 := h.atMost
  unfold prodInv at h6
  split at h6 <;> omega

theorem ops_prefix_trace (cap : Nat) (s : State) (h : Inv cap s) : s.ops <+: fullTrace := by
  rw [h.opsEq]
  unfold fullTrace
  by_cases hc : s.msgsClosed = true
  · rw [if_pos hc, (closed_imp cap s h hc).2.1]
  · rw [if_neg hc, List.append_nil]
    exact ((range_prefix_range _ _ h.atMost).map ChanOp.send).trans (List.prefix_append _ _)

/-! ## Which steps signal on `done` and which close `msgs` -/

theorem doneSends_step (cap : Nat) (g : Gid) (s t : State) (hs : step cap g s = some t) :
    t.doneSends = s.doneSends ∨
      (s.consPc = .sendDone ∧ s.mainPc = .recvDone ∧ t.consPc = .exited ∧
        t.doneSends = s.doneSends + 1) := by
  rcases s with ⟨mpc, ppc, i, df, cpc, msg, buf, closed, pan, out, ops, rcvd, ds, dr⟩
  unfold step at hs
  split at hs
  · cases hs
  · cases g
    · cases mpc <;> simp only [stepMain, doneSync] at hs
      all_goals repeat' split at hs
      all_goals cases hs
      all_goals simp_all
    · cases ppc <;> simp only [stepProduce, handoff] at hs
      all_goals repeat' split at hs
      all_goals cases hs
      all_goals simp_all
    · cases cpc <;> simp only [stepConsume, handoff, doneSync] at hs
      all_goals repeat' split at hs
      all_goals cases hs
      all_goals simp_all

theorem closed_step (cap : Nat) (g : Gid) (s t : State) (hs : step cap g s = some t) :
    t.msgsClosed = s.msgsClosed ∨
      (g = .produce ∧ s.prodPc = .returning ∧ s.msgsClosed = false ∧ t.msgsClosed = true) := by
  rcases s with ⟨mpc, ppc, i, df, cpc, msg, buf, closed, pan, out, ops, rcvd, ds, dr⟩
  unfold step at hs
  split at hs
  · cases hs
  · cases g
    · cases mpc <;> simp only [stepMain, doneSync] at hs
      all_goals repeat' split at hs
      all_goals cases hs
      all_goals simp_all
    · cases ppc <;> simp only [stepProduce, handoff] at hs
      all_goals repeat' split at hs
      all_goals cases hs
      all_goals simp_all
    · cases cpc <;> simp only [stepConsume, handoff, doneSync] at hs
      all_goals repeat' split at hs
      all_goals cases hs
      all_goals simp_all

theorem send_nine_mem (cap : Nat) (s : State) (h : Inv cap s) (he : entered s = 10) :
    ChanOp.send 9 ∈ s.ops := by
  rw [h.opsEq, he]
  exact List.mem_append_left _ (List.mem_map.mpr ⟨9, by decide, rfl⟩)

theorem send_mem_lt (cap : Nat) (s : State) (h : Inv cap s) (n : Nat)
    (hn : ChanOp.send n ∈ s.ops) : n < entered s := by
  rw [h.opsEq, List.mem_append] at hn
  rcases hn with hn | hn
  · obtain ⟨m, hm, he⟩ := List.mem_map.mp hn
    cases he
    exact List.mem_range.mp hm
  · split at hn
    · simp at hn
    · simp at hn

theorem ops_getElem (cap : Nat) (s : State) (h : Inv cap s) (n : Nat)
    (hn : n < entered s) : s.ops[n]? = some (ChanOp.send n) := by
  rw [h.opsEq, List.getElem?_append_left (by simpa using hn), List.getElem?_map,
    List.getElem?_range hn]
  rfl

/-! ## Concrete runs -/

theorem run_schedule0 : run 0 schedule0 init = some final0 := by rfl

theorem run_scheduleToClose : run 0 scheduleToClose init = some afterClose0 := by rfl

theorem run_scheduleMid : run 0 scheduleMid init = some mid0 := by rfl

theorem run_schedule10 : run 10 schedule10 init = some final0 := by rfl

theorem run_scheduleFill10 : run 10 scheduleFill10 init = some closedFull10 := by rfl

theorem terminal_final10 : Terminal 10 final0 := by
  intro g
  cases g <;> rfl

theorem terminal_final0 : Terminal 0 final0 := by
  intro g
  cases g <;> rfl

/-! ## The claims -/

/-- C1: in every complete run of the program (unbuffered `msgs`), whatever the
interleaving, `main` returns, and when `main` has returned the values printed by
`consume` are exactly 0, 1, ..., 9 in ascending order, each once and nothing
else. -/
theorem complete_run_prints_zero_to_nine (s : State) (hr : Reachable 0 s) :
    (Terminal 0 s → s.mainPc = .exited) ∧
    (s.mainPc = .exited → s.out = [0, 1, 2, 3, 4, 5, 6, 7, 8, 9]) := by
  have h := inv_of_reachable 0 s hr
  refine ⟨(terminal_iff 0 s h).mp, fun hm => ?_⟩
  obtain ⟨-, -, -, -, -, ho, hrc, -⟩ := exited_imp 0 s h hm
  rw [ho, hrc]
  rfl

theorem complete_run_prints_zero_to_nine_witness :
    Reachable 0 final0 ∧ Terminal 0 final0 ∧
      final0.out = [0, 1, 2, 3, 4, 5, 6, 7, 8, 9] :=
  ⟨⟨schedule0, run_schedule0⟩, terminal_final0,
    (complete_run_prints_zero_to_nine final0 ⟨schedule0, run_schedule0⟩).2 rfl⟩

/-- C2: in every reachable state of the program (unbuffered `msgs`), the list
of values printed so far is strictly ascending and is a prefix of 0, 1, ..., 9,
and the value received at position `k` (counting from 0) is `k`: nothing is
skipped, duplicated or reordered. -/
theorem printed_prefix_ascending (s : State) (hr : Reachable 0 s) :
    s.out.Pairwise (fun a b => a < b) ∧
    s.out <+: [0, 1, 2, 3, 4, 5, 6, 7, 8, 9] ∧
    (∀ k : Nat, k < s.rcvd.length → s.rcvd[k]? = some k) ∧
    (∀ k : Nat, k < s.out.length → s.out[k]? = some k) := by
  have h := inv_of_reachable 0 s hr
  have hrp := rcvd_prefix_range 0 s h
  have hop : s.out <+: List.range 10 := (out_prefix_rcvd 0 s h).trans hrp
  refine ⟨(List.pairwise_lt_range 10).sublist hop.sublist, hop, ?_, ?_⟩
  · intro k hk
    rw [prefix_range_eq s.rcvd 10 hrp] at hk ⊢
    rw [List.length_range] at hk
    exact List.getElem?_range hk
  · intro k hk
    rw [prefix_range_eq s.out 10 hop] at hk ⊢
    rw [List.length_range] at hk
    exact List.getElem?_range hk

theorem printed_prefix_ascending_witness :
    mid0.out = [0, 1] ∧ mid0.rcvd = [0, 1, 2] ∧
      mid0.out <+: [0, 1, 2, 3, 4, 5, 6, 7, 8, 9] :=
  ⟨rfl, rfl, (printed_prefix_ascending mid0 ⟨scheduleMid, run_scheduleMid⟩).2.1⟩

/-- C3: the program (unbuffered `msgs`) cannot deadlock and terminates: in
every reachable state in which `main` has not returned some goroutine can move,
every run has at most 60 steps and can be continued to a state in which no
goroutine can move, and the receive `<-done` of `main` completes at most once
in every run and exactly once in every complete run. -/
theorem no_deadlock_and_bounded_runs (sched : List Gid) (s : State)
    (hr : run 0 sched init = some s) :
    (s.mainPc ≠ .exited → ∃ g t, step 0 g s = some t) ∧
    sched.length ≤ 60 ∧
    (∃ rest t, run 0 (sched ++ rest) init = some t ∧ Terminal 0 t) ∧
    s.doneRecvs ≤ 1 ∧
    (Terminal 0 s → s.doneRecvs = 1) := by
  have h := inv_of_reachable 0 s ⟨sched, hr⟩
  refine ⟨?_, ?_, ?_, ?_, ?_⟩
  · intro hm
    obtain ⟨g, hg⟩ := enabled_of_inv 0 s h hm
    exact ⟨g, Option.isSome_iff_exists.mp hg⟩
  · have hf := fuel_run 0 sched init s (inv_init 0) hr
    have hi : fuel init = 60 := rfl
    omega
  · obtain ⟨rest, t, hrt, ht⟩ := exists_terminal_run 0 (fuel s) s h (Nat.le_refl _)
    refine ⟨rest, t, ?_, fun g => step_none_of_exited 0 g t ht⟩
    rw [run_append, hr]
    exact hrt
  · have h8 := h.main
    unfold mainInv at h8
    split at h8 <;> omega
  · intro ht
    exact (exited_imp 0 s h ((terminal_iff 0 s h).mp ht)).2.1

theorem no_deadlock_and_bounded_runs_witness :
    schedule0.length = 49 ∧ Terminal 0 final0 ∧ final0.doneRecvs = 1 :=
  ⟨rfl, terminal_final0,
    (no_deadlock_and_bounded_runs schedule0 final0 run_schedule0).2.2.2.2 terminal_final0⟩

/-- C4 as stated fails: right after `produce` has closed `msgs`, the channel
is closed and every value sent has been received, but `consume` has not sent on
`done` yet. -/
theorem done_iff_drained_counterexample :
    run 0 scheduleToClose init = some afterClose0 ∧
      ¬ (1 ≤ afterClose0.doneSends ↔
          (afterClose0.msgsClosed = true ∧ sentValues afterClose0 = afterClose0.rcvd)) := by
  refine ⟨run_scheduleToClose, fun h => ?_⟩
  have h1 : 1 ≤ afterClose0.doneSends := h.mpr ⟨rfl, rfl⟩
  exact absurd h1 (by decide)

/-- C4 (amended): in every reachable state of the program (unbuffered `msgs`),
if `consume` has sent on `done` then `msgs` has been closed, every value sent
has been received, and `consume` has left its loop; `consume` is past its loop
only when `msgs` is closed and drained; and the signal follows in the end: the
run can be continued to a state in which it has been sent, and it has been sent
whenever `main` has returned. -/
theorem done_sent_only_after_drained (s : State) (hr : Reachable 0 s) :
    (1 ≤ s.doneSends →
      s.msgsClosed = true ∧ sentValues s = s.rcvd ∧ s.consPc = .exited) ∧
    (s.consPc = .sendDone ∨ s.consPc = .exited →
      s.msgsClosed = true ∧ s.msgs = [] ∧ sentValues s = s.rcvd) ∧
    (∃ rest t, run 0 rest s = some t ∧ t.doneSends = 1) ∧
    (s.mainPc = .exited → s.doneSends = 1) := by
  have h := inv_of_reachable 0 s hr
  have hb := unbuffered_buf s h
  have hv : sentValues s = s.rcvd := by
    rw [sentValues_eq 0 s h, hb, List.append_nil]
  have h7 := h.cons
  refine ⟨?_, ?_, ?_, ?_⟩
  · intro hd
    unfold consInv at h7
    split at h7
    · omega
    · omega
    · omega
    · omega
    · rename_i hc
      exact ⟨h7.2.1, hv, hc⟩
  · intro hc
    unfold consInv at h7
    rcases hc with hc | hc
    · rw [hc] at h7
      exact ⟨h7.2.1, hb, hv⟩
    · rw [hc] at h7
      exact ⟨h7.2.1, hb, hv⟩
  · obtain ⟨rest, t, hrt, ht⟩ := exists_terminal_run 0 (fuel s) s h (Nat.le_refl _)
    exact ⟨rest, t, hrt, (exited_imp 0 t (inv_run 0 rest s t h hrt) ht).2.2.1⟩
  · intro hm
    exact (exited_imp 0 s h hm).2.2.1

theorem done_sent_only_after_drained_witness :
    final0.doneSends = 1 ∧ final0.msgsClosed = true ∧ sentValues final0 = final0.rcvd :=
  have h := done_sent_only_after_drained final0 ⟨schedule0, run_schedule0⟩
  ⟨h.2.2.2 rfl, (h.1 (by decide)).1, (h.1 (by decide)).2.1⟩

/-- C5: in every run of the program (unbuffered `msgs`), `consume` sends on
`done` at most once; it has not sent while it is still in its `range` loop; the
step that sends starts at `done <- true`, after the loop; and in every complete
run it has sent exactly once. -/
theorem done_sent_exactly_once (s : State) (hr : Reachable 0 s) :
    s.doneSends ≤ 1 ∧
    (s.consPc = .notStarted ∨ s.consPc = .rangeRecv ∨ s.consPc = .println →
      s.doneSends = 0) ∧
    (∀ g t, step 0 g s = some t → t.doneSends ≠ s.doneSends →
      s.consPc = .sendDone ∧ s.doneSends = 0 ∧ t.doneSends = 1 ∧ t.consPc = .exited) ∧
    (Terminal 0 s → s.doneSends = 1) := by
  have h := inv_of_reachable 0 s hr
  have h7 := h.cons
  refine ⟨?_, ?_, ?_, ?_⟩
  · unfold consInv at h7
    split at h7 <;> omega
  · intro hc
    unfold consInv at h7
    rcases hc with hc | hc | hc <;> rw [hc] at h7
    · exact h7.2.2.2
    · exact h7.2.2
    · exact h7.2.2
  · intro g t hs hne
    rcases doneSends_step 0 g s t hs with he | ⟨hc, -, htc, hd⟩
    · exact absurd he hne
    · unfold consInv at h7
      rw [hc] at h7
      have h0 : s.doneSends = 0 := h7.2.2.2.2
      exact ⟨hc, h0, by omega, htc⟩
  · intro ht
    exact (exited_imp 0 s h ((terminal_iff 0 s h).mp ht)).2.2.1

theorem done_sent_exactly_once_witness :
    Terminal 0 final0 ∧ final0.doneSends = 1 :=
  ⟨terminal_final0,
    (done_sent_exactly_once final0 ⟨schedule0, run_schedule0⟩).2.2.2 terminal_final0⟩

/-- C6: in every run of the program (unbuffered `msgs`), `msgs` is closed at
most once; the step that closes it is a step of `produce` at its return, taken
when the send of 9 has completed and the channel is still open; once `msgs` is
closed `produce` has returned and its operations were the ten sends followed by
the close, so no send is attempted on the closed channel; no panic is reachable;
and in every complete run `msgs` has been closed exactly once. -/
theorem msgs_closed_once_after_last_send (s : State) (hr : Reachable 0 s) :
    closeCount s ≤ 1 ∧
    (s.msgsClosed = true ↔ closeCount s = 1) ∧
    (∀ g t, step 0 g s = some t → closeCount t ≠ closeCount s →
      g = .produce ∧ s.prodPc = .returning ∧ ChanOp.send 9 ∈ s.ops ∧
        closeCount s = 0 ∧ closeCount t = 1) ∧
    (s.msgsClosed = true → s.prodPc = .exited ∧ s.ops = fullTrace) ∧
    s.panicked = false ∧
    (∀ g t, step 0 g s = some t → t.panicked = false) ∧
    (Terminal 0 s → closeCount s = 1) := by
  have h := inv_of_reachable 0 s hr
  have hcc := closeCount_eq 0 s h
  refine ⟨?_, ?_, ?_, ?_, h.noPanic, ?_, ?_⟩
  · rw [hcc]
    split <;> omega
  · rw [hcc]
    constructor
    · intro hc
      rw [if_pos hc]
    · intro hc
      by_contra hn
      rw [if_neg hn] at hc
      omega
  · intro g t hs hne
    have ht := inv_step 0 g s t h hs
    have htc := closeCount_eq 0 t ht
    rcases closed_step 0 g s t hs with he | ⟨hg, hp, hsc, htcl⟩
    · rw [hcc, htc, he] at hne
      exact absurd rfl hne
    · have h6 := h.prod
      unfold prodInv at h6
      rw [hp] at h6
      refine ⟨hg, hp, send_nine_mem 0 s h h6.2.1, ?_, ?_⟩
      · rw [hcc, hsc]
        rfl
      · rw [htc, htcl]
        rfl
  · intro hc
    obtain ⟨hp, he, -⟩ := closed_imp 0 s h hc
    refine ⟨hp, ?_⟩
    rw [h.opsEq, if_pos hc, he]
    rfl
  · intro g t hs
    exact (inv_step 0 g s t h hs).noPanic
  · intro ht
    rw [hcc, if_pos (exited_imp 0 s h ((terminal_iff 0 s h).mp ht)).2.2.2.1]

theorem msgs_closed_once_after_last_send_witness :
    closeCount afterClose0 = 1 ∧ afterClose0.ops = fullTrace :=
  have h := msgs_closed_once_after_last_send afterClose0
    ⟨scheduleToClose, run_scheduleToClose⟩
  ⟨h.2.1.mp rfl, (h.2.2.2.1 rfl).2⟩

/-- C7: in every reachable state of the program (unbuffered `msgs`) in which
`main` has returned, the receive `<-done` has completed, `consume` has sent on
`done` and is past its loop, `produce` has closed `msgs`, and all of 0, ..., 9
have been sent and printed. -/
theorem main_returns_after_done (s : State) (hr : Reachable 0 s)
    (hm : s.mainPc = .exited) :
    s.doneRecvs = 1 ∧ s.doneSends = 1 ∧ s.consPc = .exited ∧
    s.msgsClosed = true ∧ closeCount s = 1 ∧ s.prodPc = .exited ∧
    sentValues s = [0, 1, 2, 3, 4, 5, 6, 7, 8, 9] ∧
    s.out = [0, 1, 2, 3, 4, 5, 6, 7, 8, 9] := by
  have h := inv_of_reachable 0 s hr
  obtain ⟨hc, hdr, hds, hcl, hb, ho, hrc, hp⟩ := exited_imp 0 s h hm
  refine ⟨hdr, hds, hc, hcl, ?_, hp, ?_, ?_⟩
  · rw [closeCount_eq 0 s h, if_pos hcl]
  · rw [sentValues_eq 0 s h, hb, List.append_nil, hrc]
    rfl
  · rw [ho, hrc]
    rfl

theorem main_returns_after_done_witness :
    final0.mainPc = .exited ∧ final0.doneRecvs = 1 ∧ final0.doneSends = 1 :=
  have h := main_returns_after_done final0 ⟨schedule0, run_schedule0⟩ rfl
  ⟨rfl, h.1, h.2.1⟩

/-- C8: in every run of the program (unbuffered `msgs`), the operations of
`produce` on `msgs` so far are an initial part of: send 0, send 1, ..., send 9,
close; the send at position `n` (counting from 0) carries `n`; every value sent
is below 10 and the counter `i` never exceeds 10; when `produce` has
returned, as in every complete run, the operations are exactly the ten sends
followed by one close; and `produce` does get there: every run can be continued
to a state in which `produce` has returned with exactly that trace, and every
continuation to a state in which no goroutine can move ends with that trace. -/
theorem producer_trace (s : State) (hr : Reachable 0 s) :
    s.ops <+: fullTrace ∧
    s.i ≤ 10 ∧
    (∀ v, ChanOp.send v ∈ s.ops → v < 10) ∧
    (∀ n, n < sendCount s → s.ops[n]? = some (ChanOp.send n)) ∧
    sendCount s ≤ 10 ∧ closeCount s ≤ 1 ∧
    (s.prodPc = .exited → s.ops = fullTrace ∧ sendCount s = 10 ∧ closeCount s = 1) ∧
    (Terminal 0 s → s.ops = fullTrace) ∧
    (∃ rest t, run 0 rest s = some t ∧ t.prodPc = .exited ∧ t.ops = fullTrace) ∧
    (∀ rest t, run 0 rest s = some t → Terminal 0 t →
      t.prodPc = .exited ∧ t.ops = fullTrace) := by
  have h := inv_of_reachable 0 s hr
  have hsc := sendCount_eq 0 s h
  have hcc := closeCount_eq 0 s h
  have hex : s.prodPc = .exited → s.msgsClosed = true ∧ entered s = 10 := by
    intro hp
    have h6 := h.prod
    unfold prodInv at h6
    rw [hp] at h6
    exact ⟨h6.2.2.1, h6.2.1⟩
  have hfull : s.msgsClosed = true → entered s = 10 → s.ops = fullTrace := by
    intro hc he
    rw [h.opsEq, if_pos hc, he]
    rfl
  have hend : ∀ t : State, Inv 0 t → t.mainPc = .exited →
      t.prodPc = .exited ∧ t.ops = fullTrace := by
    intro t ht hm
    obtain ⟨-, -, -, hcl, -, -, -, hp⟩ := exited_imp 0 t ht hm
    obtain ⟨-, he, -⟩ := closed_imp 0 t ht hcl
    refine ⟨hp, ?_⟩
    rw [ht.opsEq, if_pos hcl, he]
    rfl
  refine ⟨ops_prefix_trace 0 s h, i_le_ten 0 s h, ?_, ?_, ?_, ?_, ?_, ?_, ?_, ?_⟩
  · intro v hv
    have := send_mem_lt 0 s h v hv
    have := h.atMost
    omega
  · intro n hn
    rw [hsc] at hn
    exact ops_getElem 0 s h n hn
  · rw [hsc]
    exact h.atMost
  · rw [hcc]
    split <;> omega
  · intro hp
    obtain ⟨hc, he⟩ := hex hp
    refine ⟨hfull hc he, by rw [hsc, he], by rw [hcc, if_pos hc]⟩
  · intro ht
    obtain ⟨-, -, -, hcl, -, -, -, hp⟩ := exited_imp 0 s h ((terminal_iff 0 s h).mp ht)
    exact hfull hcl (hex hp).2
  · obtain ⟨rest, t, hrt, ht⟩ := exists_terminal_run 0 (fuel s) s h (Nat.le_refl _)
    obtain ⟨hp, ho⟩ := hend t (inv_run 0 rest s t h hrt) ht
    exact ⟨rest, t, hrt, hp, ho⟩
  · intro rest t hrt ht
    have hti := inv_run 0 rest s t h hrt
    exact hend t hti ((terminal_iff 0 t hti).mp ht)

theorem producer_trace_witness :
    Reachable 0 init ∧ Reachable 0 final0 ∧ Terminal 0 final0 ∧
      run 0 schedule0 init = some final0 ∧
      final0.prodPc = .exited ∧
      final0.ops = [.send 0, .send 1, .send 2, .send 3, .send 4, .send 5, .send 6,
        .send 7, .send 8, .send 9, .close] :=
  ⟨⟨[], rfl⟩, ⟨schedule0, run_schedule0⟩, terminal_final0, run_schedule0,
    ((producer_trace init ⟨[], rfl⟩).2.2.2.2.2.2.2.2.2 schedule0 final0 run_schedule0
      terminal_final0).1,
    ((producer_trace final0 ⟨schedule0, run_schedule0⟩).2.2.2.2.2.2.1 rfl).1⟩

/-- C9: for every capacity `cap` of `msgs` (0 is the program as written) and
every interleaving: runs have at most 60 steps and can be continued to
completion; received values followed by buffered values are always exactly the
values sent, in order, so a close with values still buffered loses none; when
`consume` leaves its loop the buffer is empty and it has received 0, ..., 9;
and in every complete run the printed sequence is 0, ..., 9, the same as in
every complete run of the unbuffered program. -/
theorem buffered_same_result (cap : Nat) (sched : List Gid) (s : State)
    (hr : run cap sched init = some s) :
    sched.length ≤ 60 ∧
    (∃ rest t, run cap (sched ++ rest) init = some t ∧ Terminal cap t) ∧
    s.rcvd ++ s.msgs = sentValues s ∧
    sentValues s <+: [0, 1, 2, 3, 4, 5, 6, 7, 8, 9] ∧
    s.msgs.length ≤ cap ∧
    closeCount s ≤ 1 ∧
    s.panicked = false ∧
    (s.consPc = .sendDone ∨ s.consPc = .exited →
      s.msgsClosed = true ∧ s.msgs = [] ∧ s.rcvd = [0, 1, 2, 3, 4, 5, 6, 7, 8, 9]) ∧
    (Terminal cap s →
      s.mainPc = .exited ∧ s.out = [0, 1, 2, 3, 4, 5, 6, 7, 8, 9] ∧
      (∃ s0, Reachable 0 s0 ∧ Terminal 0 s0) ∧
      (∀ s0, Reachable 0 s0 → Terminal 0 s0 → s0.out = s.out)) := by
  have h := inv_of_reachable cap s ⟨sched, hr⟩
  have hcc := closeCount_eq cap s h
  refine ⟨?_, ?_, (sentValues_eq cap s h).symm, ?_, h.bufCap, ?_, h.noPanic, ?_, ?_⟩
  · have hf := fuel_run cap sched init s (inv_init cap) hr
    have hi : fuel init = 60 := rfl
    omega
  · obtain ⟨rest, t, hrt, ht⟩ := exists_terminal_run cap (fuel s) s h (Nat.le_refl _)
    refine ⟨rest, t, ?_, fun g => step_none_of_exited cap g t ht⟩
    rw [run_append, hr]
    exact hrt
  · rw [sentValues_eq cap s h, h.fifo]
    exact range_prefix_range _ _ h.atMost
  · rw [hcc]
    split <;> omega
  · intro hc
    have h7 := h.cons
    unfold consInv at h7
    have hcb : s.msgsClosed = true ∧ s.msgs = [] := by
      rcases hc with hc | hc <;> rw [hc] at h7 <;> exact ⟨h7.2.1, h7.2.2.1⟩
    have hf := h.fifo
    rw [(closed_imp cap s h hcb.1).2.1, hcb.2, List.append_nil] at hf
    exact ⟨hcb.1, hcb.2, hf⟩
  · intro ht
    have hm := (terminal_iff cap s h).mp ht
    obtain ⟨-, -, -, -, -, ho, hrc, -⟩ := exited_imp cap s h hm
    have hout : s.out = [0, 1, 2, 3, 4, 5, 6, 7, 8, 9] := by
      rw [ho, hrc]
      rfl
    refine ⟨hm, hout, ⟨final0, ⟨schedule0, run_schedule0⟩, terminal_final0⟩, ?_⟩
    intro s0 hr0 ht0
    have h0 := inv_of_reachable 0 s0 hr0
    obtain ⟨-, -, -, -, -, ho0, hrc0, -⟩ := exited_imp 0 s0 h0 ((terminal_iff 0 s0 h0).mp ht0)
    rw [hout, ho0, hrc0]
    rfl

theorem buffered_same_result_witness :
    closedFull10.msgsClosed = true ∧
      closedFull10.msgs = [0, 1, 2, 3, 4, 5, 6, 7, 8, 9] ∧
      closedFull10.rcvd ++ closedFull10.msgs = sentValues closedFull10 ∧
      final0.out = [0, 1, 2, 3, 4, 5, 6, 7, 8, 9] :=
  ⟨rfl, rfl,
    (buffered_same_result 10 scheduleFill10 closedFull10 run_scheduleFill10).2.2.1,
    ((buffered_same_result 10 schedule10 final0 run_schedule10).2.2.2.2.2.2.2.2
      terminal_final10).2.1⟩

/-- C10: in every reachable state of the program (unbuffered `msgs`), the
number of completed sends on `msgs` equals the number of values `consume` has
received, the number of values printed is that number or one less, and if the
send of `n` has completed then every value below `n - 1` has been printed. -/
theorem lockstep (s : State) (hr : Reachable 0 s) :
    sendCount s = s.rcvd.length ∧
    (s.out.length = s.rcvd.length ∨ s.out.length + 1 = s.rcvd.length) ∧
    (∀ n, ChanOp.send n ∈ s.ops → ∀ m, m < n - 1 → m ∈ s.out) := by
  have h := inv_of_reachable 0 s hr
  have hb := unbuffered_buf s h
  have he : entered s = s.rcvd.length := by
    unfold entered
    rw [hb]
    rfl
  have hlen : s.out.length = s.rcvd.length ∨ s.out.length + 1 = s.rcvd.length := by
    have h7 := h.cons
    unfold consInv at h7
    split at h7
    · left; rw [h7.2.1, h7.2.2.1]
    · left; rw [h7.2.1]
    · right; rw [h7.2.1, List.length_append, List.length_singleton]
    · left; rw [h7.2.2.2.1]
    · left; rw [h7.2.2.2.1]
  refine ⟨by rw [sendCount_eq 0 s h, he], hlen, ?_⟩
  intro n hn m hm
  have hlt := send_mem_lt 0 s h n hn
  rw [he] at hlt
  have hop : s.out <+: List.range 10 := (out_prefix_rcvd 0 s h).trans (rcvd_prefix_range 0 s h)
  rw [prefix_range_eq s.out 10 hop, List.mem_range]
  omega

theorem lockstep_witness :
    sendCount mid0 = 3 ∧ mid0.rcvd.length = 3 ∧ mid0.out.length = 2 :=
  ⟨(lockstep mid0 ⟨scheduleMid, run_scheduleMid⟩).1.trans rfl, rfl, rfl⟩

end ProducerConsumer
